import Mathlib

/-!
# Shallow embedding of `bili_convert.py` (ygnid/bili-video-converter)

This file embeds the decision logic of `src/bili_video_converter/bili_convert.py`
and proves properties of it.

Modelling conventions:
* Paths and other Python strings are `List Char`; file contents are `List Nat`
  (one `Nat` per byte, values < 256 in practice; the code only compares bytes
  against `0x30`, so no arithmetic is modelled).
* Filesystem effects are made explicit: a function that may write a file
  returns the (path, bytes) pair it writes, `none` when it writes nothing;
  directory creation is returned as the directory path created.
* External subprocesses (`ffprobe`, `ffmpeg`) are parameters: the caller
  supplies the behaviour of the invoked process, and the embedding records the
  exact invocation the Python code would have issued.
-/

namespace BiliConvert

/-- ASCII fragment of Python `str.lower`: maps `A`–`Z` to `a`–`z` and leaves
every other character unchanged.  (Python's `str.lower` additionally folds
non-ASCII letters; the only use here is the comparison of a path against the
ASCII extension `".m4s"`, for which no non-ASCII character can become one of
`.`, `m`, `4`, `s` under Unicode lowercasing, so the ASCII fragment is
faithful for that comparison.) -/
def asciiLower (c : Char) : Char :=
  if 'A' ≤ c ∧ c ≤ 'Z' then Char.ofNat (c.toNat + 32) else c

/-- Python `input_file.lower()` on a path, ASCII fragment (see `asciiLower`). -/
def pyLower (s : List Char) : List Char :=
  s.map asciiLower

/-- The extension that `remove_first_9_bytes_if_zero` treats as processable:
`input_file.lower().endswith('.m4s')`. -/
def dotM4s : List Char := ".m4s".toList

/-- The extension check of `remove_first_9_bytes_if_zero`
(`input_file.lower().endswith('.m4s')`). -/
def isM4sPath (input_file : List Char) : Bool :=
  dotM4s.isSuffixOf (pyLower input_file)

/-- The spec's `RepairOutcome` (§4.1), mapped onto the four disjoint branches
of `remove_first_9_bytes_if_zero`: the function itself returns `True` exactly
on `Stripped` and `False` on the three other branches, which are told apart by
their distinct log messages. -/
inductive RepairOutcome
  | Stripped
  | Unchanged
  | TooSmall
  | WrongKind
deriving DecidableEq, Repr

/-- Result of one run of `remove_first_9_bytes_if_zero`: the outcome branch
and the single file write the run performs (`none` when nothing is written).
The function performs at most one `open(..., 'wb')` on every path through the
code, so a single optional write is a faithful record of its filesystem
effect; in particular, when the write goes to a path other than the input
path, the input file is untouched. -/
structure RepairResult where
  outcome : RepairOutcome
  write : Option (List Char × List Nat)
deriving DecidableEq, Repr

/-- Embedding of `remove_first_9_bytes_if_zero(input_file, output_file=None)`.
`data` is the byte content read from `input_file`; `output_file = none` models
the Python default `None` (overwrite the input path).

Mirrors the source order of checks exactly:
1. `len(data) < 9` → no write (`TooSmall`);
2. `not input_file.lower().endswith('.m4s')` → no write (`WrongKind`);
3. first 9 bytes all `0x30` → write `data[9:]` to `output_file` if it is not
   `None` else to `input_file` (the source tests `output_file is None`, so
   even an empty-string destination is used as given) (`Stripped`);
4. otherwise → copy `data` to `output_file` only under Python's
   `if output_file and output_file != input_file:`, i.e. only when the
   destination is non-`None`, non-empty and differs from the input path
   (`Unchanged`). -/
def remove_first_9_bytes_if_zero (input_file : List Char) (data : List Nat)
    (output_file : Option (List Char)) : RepairResult :=
  if data.length < 9 then
    ⟨.TooSmall, none⟩
  else if isM4sPath input_file = false then
    ⟨.WrongKind, none⟩
  else if (data.take 9).all (fun b => b == 0x30) then
    ⟨.Stripped, some (output_file.getD input_file, data.drop 9)⟩
  else
    match output_file with
    | some o => if o ≠ [] ∧ o ≠ input_file then ⟨.Unchanged, some (o, data)⟩
                else ⟨.Unchanged, none⟩
    | none => ⟨.Unchanged, none⟩

/-- C1: properly marked (`.m4s` path), large-enough content whose first 9
bytes are all ASCII `'0'` (0x30): the run strips exactly those 9 bytes,
writing `data.drop 9` to the requested destination (the input path when no
alternate destination is supplied), and reports `Stripped`.  The single
recorded write also shows the original file is untouched when an alternate
destination is given. -/
theorem repair_strips_nine_zero_bytes (input_file : List Char) (data : List Nat)
    (output_file : Option (List Char))
    (h9 : 9 ≤ data.length)
    (hz : (data.take 9).all (fun b => b == 0x30) = true)
    (hm : isM4sPath input_file = true) :
    remove_first_9_bytes_if_zero input_file data output_file =
      ⟨.Stripped, some (output_file.getD input_file, data.drop 9)⟩ := by
  simp [remove_first_9_bytes_if_zero, Nat.not_lt.mpr h9, hm, hz]

/-- Witness for `repair_strips_nine_zero_bytes` at the spec's end-to-end
example: `b'000000000Hello World!'` becomes `b'Hello World!'`. -/
theorem repair_strips_nine_zero_bytes_witness :
    remove_first_9_bytes_if_zero "test.m4s".toList
      (List.replicate 9 0x30 ++ "Hello World!".toList.map Char.toNat) none =
      ⟨.Stripped, some ("test.m4s".toList, "Hello World!".toList.map Char.toNat)⟩ := by
  have h := repair_strips_nine_zero_bytes "test.m4s".toList
    (List.replicate 9 0x30 ++ "Hello World!".toList.map Char.toNat) none
    (by decide) (by decide) (by decide)
  simpa using h

/-- C3 counterexample: repair is **not** idempotent.  On a `.m4s` file of
eighteen `'0'` bytes, the first application strips nine bytes and leaves nine
`'0'` bytes, which still match the sentinel pattern, so a second application
strips again (writing the empty content, which differs from its input) instead
of being a no-op. -/
theorem repair_not_idempotent_counterexample :
    remove_first_9_bytes_if_zero "a.m4s".toList (List.replicate 18 0x30) none =
      ⟨.Stripped, some ("a.m4s".toList, List.replicate 9 0x30)⟩ ∧
    remove_first_9_bytes_if_zero "a.m4s".toList (List.replicate 9 0x30) none =
      ⟨.Stripped, some ("a.m4s".toList, [])⟩ ∧
    ([] : List Nat) ≠ List.replicate 9 0x30 := by
  refine ⟨by decide, by decide, by decide⟩

/-- C3 (amended): re-applying repair to the bytes produced by a first
(stripping) application is a no-op — no write at all — **provided** the
stripped remainder does not itself begin with nine `'0'` bytes (the general
claim fails when it does, see `repair_not_idempotent_counterexample`). -/
theorem repair_idempotent_unless_residual_sentinel (input_file : List Char)
    (data stripped : List Nat)
    (h1 : remove_first_9_bytes_if_zero input_file data none =
      ⟨.Stripped, some (input_file, stripped)⟩)
    (hns : ¬ (9 ≤ stripped.length ∧
      (stripped.take 9).all (fun b => b == 0x30) = true)) :
    (remove_first_9_bytes_if_zero input_file stripped none).write = none := by
  have hm : isM4sPath input_file = true := by
    by_contra hm
    rw [Bool.not_eq_true] at hm
    by_cases hlen : data.length < 9 <;>
      simp [remove_first_9_bytes_if_zero, hlen, hm] at h1
  by_cases hlen : stripped.length < 9
  · simp [remove_first_9_bytes_if_zero, hlen]
  · have hz : (stripped.take 9).all (fun b => b == 0x30) = false := by
      rw [Bool.eq_false_iff]
      intro hz
      exact hns ⟨Nat.not_lt.mp hlen, hz⟩
    simp [remove_first_9_bytes_if_zero, hlen, hm, hz]

/-- Witness for `repair_idempotent_unless_residual_sentinel`: stripping
`'0'*9 ++ [1,2,3]` leaves `[1,2,3]`, on which repair writes nothing. -/
theorem repair_idempotent_unless_residual_sentinel_witness :
    (remove_first_9_bytes_if_zero "a.m4s".toList [1, 2, 3] none).write = none :=
  repair_idempotent_unless_residual_sentinel "a.m4s".toList
    (List.replicate 9 0x30 ++ [1, 2, 3]) [1, 2, 3] (by decide) (by decide)

/-- C4 counterexample: the claim omits the extension and alternate-destination
conditions under which the `Unchanged` branch is reached.  (1) A file of 9
non-`'0'` bytes at a path without the `.m4s` extension yields `WrongKind`, not
`Unchanged`, and the supplied alternate destination receives no copy.  (2) On
a `.m4s` path, an alternate destination that is the empty string (Python
falsy, so `if output_file and ...` skips the copy) also receives no copy even
though the outcome is `Unchanged`. -/
theorem repair_unchanged_counterexample :
    remove_first_9_bytes_if_zero "a.txt".toList (List.replicate 9 0x31)
      (some "b.txt".toList) = ⟨.WrongKind, none⟩ ∧
    RepairOutcome.WrongKind ≠ RepairOutcome.Unchanged ∧
    remove_first_9_bytes_if_zero "a.m4s".toList (List.replicate 9 0x31)
      (some []) = ⟨.Unchanged, none⟩ := by
  refine ⟨by decide, by decide, by decide⟩

/-- C4 (amended): for every file at a path with the processable extension
whose content has length ≥ 9 and whose first 9 bytes are not all `'0'`,
repair reports `Unchanged` and does not modify the original file; if a
non-empty alternate destination different from the input path was requested,
the unmodified full content is copied there verbatim, and otherwise nothing
is written. -/
theorem repair_leaves_nonmatching_content_unchanged (input_file : List Char)
    (data : List Nat) (output_file : Option (List Char))
    (h9 : 9 ≤ data.length)
    (hm : isM4sPath input_file = true)
    (hz : (data.take 9).all (fun b => b == 0x30) = false) :
    (remove_first_9_bytes_if_zero input_file data output_file).outcome =
      .Unchanged ∧
    (∀ o, output_file = some o → o ≠ [] → o ≠ input_file →
      (remove_first_9_bytes_if_zero input_file data output_file).write =
        some (o, data)) ∧
    ((output_file = none ∨ output_file = some [] ∨
        output_file = some input_file) →
      (remove_first_9_bytes_if_zero input_file data output_file).write =
        none) := by
  refine ⟨?_, ?_, ?_⟩
  · match output_file with
    | none => simp [remove_first_9_bytes_if_zero, Nat.not_lt.mpr h9, hm, hz]
    | some o =>
      by_cases ho : o ≠ [] ∧ o ≠ input_file <;>
        simp [remove_first_9_bytes_if_zero, Nat.not_lt.mpr h9, hm, hz, ho]
  · rintro o rfl hne hni
    simp [remove_first_9_bytes_if_zero, Nat.not_lt.mpr h9, hm, hz, hne, hni]
  · rintro (rfl | rfl | rfl) <;>
      simp [remove_first_9_bytes_if_zero, Nat.not_lt.mpr h9, hm, hz]

/-- Witness for `repair_leaves_nonmatching_content_unchanged`: nine `'1'`
bytes on a `.m4s` path with an alternate destination are copied verbatim. -/
theorem repair_leaves_nonmatching_content_unchanged_witness :
    (remove_first_9_bytes_if_zero "a.m4s".toList (List.replicate 9 0x31)
        (some "b.m4s".toList)).write =
      some ("b.m4s".toList, List.replicate 9 0x31) :=
  (repair_leaves_nonmatching_content_unchanged "a.m4s".toList
      (List.replicate 9 0x31) (some "b.m4s".toList)
      (by decide) (by decide) (by decide)).2.1
    "b.m4s".toList rfl (by decide) (by decide)

/-- C9: content shorter than 9 bytes yields `TooSmall` with no write, for
**every** path and destination — the length check is the first check in the
source, so it is decided before (and regardless of) the extension check. -/
theorem repair_too_small (input_file : List Char) (data : List Nat)
    (output_file : Option (List Char)) (h : data.length < 9) :
    remove_first_9_bytes_if_zero input_file data output_file =
      ⟨.TooSmall, none⟩ := by
  simp [remove_first_9_bytes_if_zero, h]

/-- Witness for `repair_too_small`, on a path **without** the `.m4s`
extension: the outcome is still `TooSmall`, not `WrongKind`. -/
theorem repair_too_small_witness :
    remove_first_9_bytes_if_zero "a.txt".toList [1, 2, 3]
      (some "b.txt".toList) = ⟨.TooSmall, none⟩ :=
  repair_too_small "a.txt".toList [1, 2, 3] (some "b.txt".toList) (by decide)

/-- C10: for content of length ≥ 9 (so the length guard does not fire first),
the `WrongKind` outcome occurs exactly when the lower-cased path does not end
with `".m4s"`; in particular any case mixture such as `".M4S"` is treated as
a processable segment. -/
theorem repair_wrongkind_iff_not_m4s (input_file : List Char)
    (data : List Nat) (output_file : Option (List Char))
    (h9 : 9 ≤ data.length) :
    (remove_first_9_bytes_if_zero input_file data output_file).outcome =
      .WrongKind ↔ dotM4s.isSuffixOf (pyLower input_file) = false := by
  constructor
  · intro h
    by_contra hm
    rw [Bool.not_eq_false] at hm
    have hm' : isM4sPath input_file = true := hm
    by_cases hz : (data.take 9).all (fun b => b == 0x30) = true
    · simp [remove_first_9_bytes_if_zero, Nat.not_lt.mpr h9, hm', hz] at h
    · rw [Bool.not_eq_true] at hz
      match output_file with
      | none =>
        simp [remove_first_9_bytes_if_zero, Nat.not_lt.mpr h9, hm', hz] at h
      | some o =>
        by_cases ho : o ≠ [] ∧ o ≠ input_file <;>
          simp [remove_first_9_bytes_if_zero, Nat.not_lt.mpr h9, hm', hz,
            ho] at h
  · intro hm
    have hm' : isM4sPath input_file = false := hm
    simp [remove_first_9_bytes_if_zero, Nat.not_lt.mpr h9, hm']

/-- Witness for `repair_wrongkind_iff_not_m4s`: an upper-cased `.M4S` path is
not rejected as `WrongKind`. -/
theorem repair_wrongkind_iff_not_m4s_witness :
    (remove_first_9_bytes_if_zero "A.M4S".toList (List.replicate 9 0x31)
        none).outcome ≠ .WrongKind := by
  intro hc
  exact absurd
    ((repair_wrongkind_iff_not_m4s "A.M4S".toList (List.replicate 9 0x31)
        none (by decide)).mp hc)
    (by decide)

/-- The reserved character class of `clean_Win_illegal_chars`
(`r'[<>:"/\\|?*]'`, a regex class matching one character, so the backslash is
a single character here). -/
def illegal_chars : List Char := ['<', '>', ':', '"', '/', '\\', '|', '?', '*']

/-- Embedding of `clean_Win_illegal_chars(input_path)`:
`re.sub(r'[<>:"/\\|?*]', '_', input_path)` substitutes each character of the
class with the one-character replacement `'_'`, i.e. it maps each character
of the string independently. -/
def clean_Win_illegal_chars (input_path : List Char) : List Char :=
  input_path.map (fun c => if c ∈ illegal_chars then '_' else c)

/-- Pointwise description of `clean_Win_illegal_chars`: at every position the
output character is `'_'` when the input character is reserved and is the
input character otherwise (positions past the end give the default `'!'` on
both sides, and `'!'` is not reserved). -/
theorem clean_pointwise (s : List Char) (i : ℕ) :
    (clean_Win_illegal_chars s).getD i '!' =
      if s.getD i '!' ∈ illegal_chars then '_' else s.getD i '!' := by
  induction s generalizing i with
  | nil => simp [clean_Win_illegal_chars, List.getD]; decide
  | cons c t ih =>
    match i with
    | 0 => simp [clean_Win_illegal_chars]
    | i + 1 =>
      simpa [clean_Win_illegal_chars] using ih i

/-- C7: `clean_Win_illegal_chars` replaces every occurrence of a reserved
character with `'_'` and leaves every other character unchanged (the
pointwise clause), hence it is length-preserving, idempotent, and the
identity — therefore injective — on strings containing no reserved
character. -/
theorem clean_spec (s : List Char) :
    (clean_Win_illegal_chars s).length = s.length ∧
    (∀ i : ℕ, (clean_Win_illegal_chars s).getD i '!' =
      if s.getD i '!' ∈ illegal_chars then '_' else s.getD i '!') ∧
    clean_Win_illegal_chars (clean_Win_illegal_chars s) =
      clean_Win_illegal_chars s ∧
    ((∀ c ∈ s, c ∉ illegal_chars) → clean_Win_illegal_chars s = s) ∧
    (∀ t : List Char, (∀ c ∈ s, c ∉ illegal_chars) →
      (∀ c ∈ t, c ∉ illegal_chars) →
      clean_Win_illegal_chars s = clean_Win_illegal_chars t → s = t) := by
  have hid : ∀ u : List Char, (∀ c ∈ u, c ∉ illegal_chars) →
      clean_Win_illegal_chars u = u := by
    intro u hu
    induction u with
    | nil => rfl
    | cons c t ih =>
      have hc : c ∉ illegal_chars := hu c (List.mem_cons_self c t)
      have ht : clean_Win_illegal_chars t = t :=
        ih (fun d hd => hu d (List.mem_cons_of_mem c hd))
      simpa [clean_Win_illegal_chars, hc] using ht
  refine ⟨?_, fun i => clean_pointwise s i, ?_, hid s, ?_⟩
  · simp [clean_Win_illegal_chars]
  · induction s with
    | nil => rfl
    | cons c t ih =>
      by_cases hc : c ∈ illegal_chars <;>
        simp [clean_Win_illegal_chars, hc] at ih ⊢ <;>
        simpa [clean_Win_illegal_chars] using ih
  · intro t hs ht he
    rw [hid s hs, hid t ht] at he
    exact he

/-- Witness for `clean_spec` at the spec's example: a name holding each
reserved character exactly once maps to nine placeholders, and sanitizing is
idempotent there. -/
theorem clean_spec_witness :
    clean_Win_illegal_chars (clean_Win_illegal_chars illegal_chars) =
      clean_Win_illegal_chars illegal_chars ∧
    clean_Win_illegal_chars "ab1".toList = "ab1".toList :=
  ⟨(clean_spec illegal_chars).2.2.1,
    (clean_spec "ab1".toList).2.2.2.1 (by decide)⟩

/-- POSIX `os.path.join` for two components, as in `posixpath.join`: an
absolute second component replaces the first; otherwise the separator is
inserted unless the first component is empty or already ends with it. -/
def pyJoin (a b : List Char) : List Char :=
  if b.head? = some '/' then b
  else if a = [] then b
  else if a.getLast? = some '/' then a ++ b
  else a ++ '/' :: b

/-- POSIX `os.path.dirname`, as in `posixpath.dirname`: everything up to and
including the last `'/'`, with trailing separators stripped unless the result
is empty or consists only of separators. -/
def dirname (p : List Char) : List Char :=
  let head := (p.reverse.dropWhile (fun c => !(c == '/'))).reverse
  if head = [] ∨ head.all (fun c => c == '/') then head
  else (head.reverse.dropWhile (fun c => c == '/')).reverse

/-- A built output path together with the directory creation it performs
(`os.makedirs(os.path.dirname(output_path), exist_ok=True)` in the grouped
branch; `none` in the ungrouped branch). -/
structure BuiltPath where
  path : List Char
  made_dir : Option (List Char)
deriving DecidableEq, Repr

/-- The output-path construction duplicated verbatim in
`merge_m4s_to_mp4_with_ffmpeg` (with extension `"mp4"`) and in
`save_audio_file` (with the codec-derived extension):

    if not group_title or group_title == title:
        output_path = os.path.join(output_path, f"{title}.{ext}")
    else:
        output_path = os.path.join(output_path, group_title, f"{title}.{ext}")
        os.makedirs(os.path.dirname(output_path), exist_ok=True)

Python's `not group_title` is the empty-string test. -/
def build_output_path (root title group_title ext : List Char) : BuiltPath :=
  if group_title = [] ∨ group_title = title then
    ⟨pyJoin root (title ++ '.' :: ext), none⟩
  else
    let p := pyJoin (pyJoin root group_title) (title ++ '.' :: ext)
    ⟨p, some (dirname p)⟩

/-- Helper: `dropWhile` passes over a block on which the predicate holds
everywhere. -/
theorem dropWhile_append_all {p : Char → Bool} {xs ys : List Char}
    (h : ∀ x ∈ xs, p x = true) :
    (xs ++ ys).dropWhile p = ys.dropWhile p := by
  induction xs with
  | nil => rfl
  | cons c t ih =>
    have hc : p c = true := h c (List.mem_cons_self c t)
    simp only [List.cons_append, List.dropWhile_cons, hc, if_pos]
    exact ih (fun x hx => h x (List.mem_cons_of_mem c hx))

/-- Helper: `dropWhile` stops at once on a head where the predicate fails. -/
theorem dropWhile_cons_of_neg (p : Char → Bool) (c : Char) (l : List Char)
    (h : p c = false) : (c :: l).dropWhile p = c :: l := by
  simp [List.dropWhile_cons, h]

/-- The last element of a list with a nonempty second block comes from that
block. -/
theorem getLast?_append_right (xs : List Char) {ys : List Char}
    (h : ys ≠ []) : (xs ++ ys).getLast? = ys.getLast? := by
  induction xs with
  | nil => rfl
  | cons c t ih =>
    rw [List.cons_append, List.getLast?_cons, ih]
    cases ys with
    | nil => exact absurd rfl h
    | cons d u =>
      cases t <;> simp [List.getLast?_cons]

/-- The last element of a list belongs to it. -/
theorem mem_of_getLast?_eq {l : List Char} {c : Char}
    (h : l.getLast? = some c) : c ∈ l := by
  induction l with
  | nil => simp at h
  | cons d t ih =>
    rw [List.getLast?_cons] at h
    cases ht : t.getLast? with
    | some e =>
      rw [ht, Option.getD_some] at h
      exact List.mem_cons_of_mem d (ih (ht.trans h))
    | none =>
      rw [ht, Option.getD_none, Option.some_inj] at h
      exact h ▸ List.mem_cons_self d t

/-- Helper: `pyJoin` inserts exactly one separator when the first component is
nonempty without a trailing separator and the second does not start with
one. -/
theorem pyJoin_eq (a b : List Char) (ha : a ≠ [])
    (hal : a.getLast? ≠ some '/') (hb : b.head? ≠ some '/') :
    pyJoin a b = a ++ '/' :: b := by
  simp [pyJoin, ha, hal, hb]

/-- Helper: `dirname` of `xs ++ "/" ++ fn` for a separator-free, nonempty last
directory component: the grouped output file's parent directory. -/
theorem dirname_of_grouped (root gt fn : List Char) (hg : gt ≠ [])
    (hgs : ∀ c ∈ gt, c ≠ '/') (hfn : ∀ c ∈ fn, c ≠ '/') :
    dirname (root ++ '/' :: gt ++ '/' :: fn) = root ++ '/' :: gt := by
  have hrev : (root ++ '/' :: gt ++ '/' :: fn).reverse =
      fn.reverse ++ '/' :: (gt.reverse ++ '/' :: root.reverse) := by
    simp
  have hfn' : ∀ c ∈ fn.reverse, (!(c == '/')) = true := by
    intro c hc
    simpa using hfn c (List.mem_reverse.mp hc)
  have hdrop : (root ++ '/' :: gt ++ '/' :: fn).reverse.dropWhile
      (fun c => !(c == '/')) = '/' :: (gt.reverse ++ '/' :: root.reverse) := by
    rw [hrev, dropWhile_append_all hfn',
      dropWhile_cons_of_neg (fun c => !(c == '/')) '/'
        (gt.reverse ++ '/' :: root.reverse) (by simp)]
  have hhead : (((root ++ '/' :: gt ++ '/' :: fn).reverse.dropWhile
      (fun c => !(c == '/'))).reverse) = (root ++ '/' :: gt) ++ ['/'] := by
    rw [hdrop]
    simp
  obtain ⟨c, gt', hgt⟩ : ∃ c gt', gt.reverse = c :: gt' := by
    cases hr : gt.reverse with
    | nil => exact absurd (by simpa using congrArg List.reverse hr) hg
    | cons c gt' => exact ⟨c, gt', rfl⟩
  have hc : c ∈ gt := by
    have : c ∈ gt.reverse := hgt ▸ List.mem_cons_self c gt'
    exact List.mem_reverse.mp this
  have hcne : (c == '/') = false := by simpa using hgs c hc
  have hnotall : ((root ++ '/' :: gt) ++ ['/']).all (fun c => c == '/') =
      false := by
    rw [List.all_eq_false]
    refine ⟨c, ?_, by simp [hcne]⟩
    exact List.mem_append.mpr (Or.inl (List.mem_append.mpr
      (Or.inr (List.mem_cons_of_mem '/' hc))))
  have hne : (root ++ '/' :: gt) ++ ['/'] ≠ [] := by simp
  have hcond : ¬ ((root ++ '/' :: gt) ++ ['/'] = [] ∨
      ((root ++ '/' :: gt) ++ ['/']).all (fun c => c == '/') = true) := by
    rintro (habs | habs)
    · exact hne habs
    · rw [hnotall] at habs
      exact Bool.false_ne_true habs
  unfold dirname
  rw [hhead]
  rw [if_neg hcond]
  have hstrip : ((root ++ '/' :: gt) ++ ['/']).reverse.dropWhile
      (fun c => c == '/') = gt.reverse ++ '/' :: root.reverse := by
    have hrev2 : ((root ++ '/' :: gt) ++ ['/']).reverse =
        '/' :: (gt.reverse ++ '/' :: root.reverse) := by simp
    rw [hrev2, List.dropWhile_cons]
    simp only [beq_self_eq_true, if_pos]
    rw [hgt, List.cons_append,
      dropWhile_cons_of_neg (fun x => x == '/') c
        (gt' ++ '/' :: root.reverse) hcne]
  rw [hstrip]
  simp

/-- C8: output-path construction.  For every root (nonempty, no trailing
separator) and sanitized (separator-free) title, group title and extension:
if the group title is empty or equals the title the built path is
`root/{title}.{ext}` with no directory creation; otherwise it is
`root/{groupTitle}/{title}.{ext}` and the `{groupTitle}` directory
(`root/{groupTitle}`) is the one created (via `os.makedirs(...,
exist_ok=True)`, i.e. created only if absent). -/
theorem build_output_path_spec (root title group_title ext : List Char)
    (hroot : root ≠ []) (hrs : root.getLast? ≠ some '/')
    (ht : ∀ c ∈ title, c ≠ '/') (he : ∀ c ∈ ext, c ≠ '/')
    (hg : ∀ c ∈ group_title, c ≠ '/') :
    (group_title = [] ∨ group_title = title →
      build_output_path root title group_title ext =
        ⟨root ++ '/' :: (title ++ '.' :: ext), none⟩) ∧
    (group_title ≠ [] → group_title ≠ title →
      build_output_path root title group_title ext =
        ⟨root ++ '/' :: group_title ++ '/' :: (title ++ '.' :: ext),
          some (root ++ '/' :: group_title)⟩) := by
  have hfn : (title ++ '.' :: ext).head? ≠ some '/' := by
    cases title with
    | nil => simp
    | cons c t =>
      intro hcon
      simp only [List.cons_append, List.head?_cons, Option.some_inj] at hcon
      exact ht c (List.mem_cons_self c t) hcon
  constructor
  · intro hcase
    rw [build_output_path, if_pos hcase, pyJoin_eq root _ hroot hrs hfn]
  · intro hg1 hg2
    have hghead : group_title.head? ≠ some '/' := by
      cases group_title with
      | nil => simp
      | cons c t =>
        intro hcon
        simp only [List.head?_cons, Option.some_inj] at hcon
        exact hg c (List.mem_cons_self c t) hcon
    have hp1 : pyJoin root group_title = root ++ '/' :: group_title :=
      pyJoin_eq root group_title hroot hrs hghead
    have hp1ne : root ++ '/' :: group_title ≠ [] := by simp
    have hp1last : (root ++ '/' :: group_title).getLast? ≠ some '/' := by
      rw [getLast?_append_right root (by simp)]
      intro hcon
      have : '/' ∈ '/' :: group_title := mem_of_getLast?_eq hcon
      rcases List.mem_cons.mp this with h | h
      · cases group_title with
        | nil => simp at hg1
        | cons c t =>
          have : ('/' :: c :: t).getLast? = (c :: t).getLast? := by
            simp [List.getLast?_cons]
          rw [this] at hcon
          exact hg '/' (mem_of_getLast?_eq hcon) rfl
      · exact hg '/' h rfl
    have hp2 : pyJoin (root ++ '/' :: group_title) (title ++ '.' :: ext) =
        root ++ '/' :: group_title ++ '/' :: (title ++ '.' :: ext) := by
      rw [pyJoin_eq _ _ hp1ne hp1last hfn]
    have hfn' : ∀ c ∈ title ++ '.' :: ext, c ≠ '/' := by
      intro c hc
      rcases List.mem_append.mp hc with h | h
      · exact ht c h
      · rcases List.mem_cons.mp h with h | h
        · simp [h]
        · exact he c h
    rw [build_output_path, if_neg (by simp [hg1, hg2])]
    simp only [hp1, hp2]
    rw [dirname_of_grouped root group_title _ hg1 hg hfn']

/-- Witness for `build_output_path_spec` at the spec's examples:
`buildPath(root, "Ep1", "Ep1", "mp4") = root/Ep1.mp4` and
`buildPath(root, "Ep1", "Season A", "mp4") = root/Season A/Ep1.mp4` with the
`Season A` directory created. -/
theorem build_output_path_spec_witness :
    build_output_path "root".toList "Ep1".toList "Ep1".toList "mp4".toList =
      ⟨"root/Ep1.mp4".toList, none⟩ ∧
    build_output_path "root".toList "Ep1".toList "Season A".toList
        "mp4".toList =
      ⟨"root/Season A/Ep1.mp4".toList, some "root/Season A".toList⟩ := by
  constructor
  · have h := (build_output_path_spec "root".toList "Ep1".toList
      "Ep1".toList "mp4".toList (by decide) (by decide) (by decide)
      (by decide) (by decide)).1 (Or.inr rfl)
    exact h.trans (by decide)
  · have h := (build_output_path_spec "root".toList "Ep1".toList
      "Season A".toList "mp4".toList (by decide) (by decide) (by decide)
      (by decide) (by decide)).2 (by decide) (by decide)
    exact h.trans (by decide)

/-- Result of a synchronous subprocess invocation, as observed by the Python
caller: either the process exited with a return code, or
`subprocess.TimeoutExpired` was raised. -/
inductive ProcResult
  | exited (code : Nat)
  | timedOut
deriving DecidableEq, Repr

/-- One recorded transcoder invocation: the exact `argv` the source builds
and the `timeout=` argument it passes to `subprocess.run`. -/
structure TranscoderCall where
  argv : List (List Char)
  timeoutSec : Nat
deriving DecidableEq, Repr

/-- The `ffmpeg` command list built by `merge_m4s_to_mp4_with_ffmpeg`:
`['ffmpeg', '-i', videofile, '-i', audiofile, '-c', 'copy', '-y',
output_path]` run with `timeout=300` — two inputs, stream copy (`-c copy`,
no re-encoding), overwrite of any pre-existing output (`-y`). -/
def ffmpeg_merge_cmd (videofile audiofile out_path : List Char) :
    TranscoderCall :=
  ⟨["ffmpeg".toList, "-i".toList, videofile, "-i".toList, audiofile,
    "-c".toList, "copy".toList, "-y".toList, out_path], 300⟩

/-- The spec's per-item merge outcomes (§4.5, §7), mapped onto the disjoint
`return False`/`return True` branches of `merge_m4s_to_mp4_with_ffmpeg`
(told apart by their distinct log messages): fewer than two segments,
first/second segment missing on disk, empty title, transcoder success, and
transcoder non-zero exit or timeout. -/
inductive MergeOutcome
  | InsufficientInput
  | MissingInputFile
  | MissingTitle
  | Success
  | TranscodeFailure
deriving DecidableEq, Repr

/-- Result of one run of `merge_m4s_to_mp4_with_ffmpeg`: the outcome branch,
the transcoder invocation it issued (`none` when no subprocess was invoked —
the source reaches its single `subprocess.run` call on exactly one path),
and the directory creation performed while building the output path. -/
structure MergeResult where
  outcome : MergeOutcome
  call : Option TranscoderCall
  made_dir : Option (List Char)
deriving DecidableEq, Repr

/-- Embedding of `merge_m4s_to_mp4_with_ffmpeg(m4s_files, title, group_title,
output_path)`.  `file_exists` models `os.path.exists`; `ffmpeg_run` models
the behaviour of the single `subprocess.run(cmd, ..., timeout=300)` call.

Mirrors the source order exactly: `len(m4s_files) < 2` (the
`v :: a :: _` pattern match) → `InsufficientInput`; `m4s_files[0]` is taken
as the video file and `m4s_files[1]` as the audio file, purely by position;
each is checked with `os.path.exists`; `if not title` (empty-string test) →
`MissingTitle`; then the output path is built (creating the group directory
in the grouped branch) and `ffmpeg` is invoked once, `returncode == 0` →
`Success`, non-zero exit or `TimeoutExpired` → `TranscodeFailure`. -/
def merge_m4s_to_mp4_with_ffmpeg (m4s_files : List (List Char))
    (title group_title output_path : List Char)
    (file_exists : List Char → Bool) (ffmpeg_run : ProcResult) :
    MergeResult :=
  match m4s_files with
  | videofile :: audiofile :: _ =>
    if file_exists videofile = false then ⟨.MissingInputFile, none, none⟩
    else if file_exists audiofile = false then ⟨.MissingInputFile, none, none⟩
    else if title = [] then ⟨.MissingTitle, none, none⟩
    else
      let b := build_output_path output_path title group_title "mp4".toList
      let call := ffmpeg_merge_cmd videofile audiofile b.path
      match ffmpeg_run with
      | .exited 0 => ⟨.Success, some call, b.made_dir⟩
      | .exited _ => ⟨.TranscodeFailure, some call, b.made_dir⟩
      | .timedOut => ⟨.TranscodeFailure, some call, b.made_dir⟩
  | _ => ⟨.InsufficientInput, none, none⟩

/-- C5: every invalid merge invocation — fewer than two segments (including
zero), a first or second segment missing on disk, or an empty title — fails
on its distinct early-return branch, and in every such case no transcoder
subprocess is invoked (`call = none`) and no directory is created. -/
theorem merge_fails_without_invoking_transcoder
    (m4s_files : List (List Char)) (title group_title output_path : List Char)
    (file_exists : List Char → Bool) (ffmpeg_run : ProcResult) :
    (m4s_files.length < 2 →
      merge_m4s_to_mp4_with_ffmpeg m4s_files title group_title output_path
        file_exists ffmpeg_run = ⟨.InsufficientInput, none, none⟩) ∧
    (∀ v a rest, m4s_files = v :: a :: rest →
      (file_exists v = false →
        merge_m4s_to_mp4_with_ffmpeg m4s_files title group_title output_path
          file_exists ffmpeg_run = ⟨.MissingInputFile, none, none⟩) ∧
      (file_exists v = true → file_exists a = false →
        merge_m4s_to_mp4_with_ffmpeg m4s_files title group_title output_path
          file_exists ffmpeg_run = ⟨.MissingInputFile, none, none⟩) ∧
      (file_exists v = true → file_exists a = true → title = [] →
        merge_m4s_to_mp4_with_ffmpeg m4s_files title group_title output_path
          file_exists ffmpeg_run = ⟨.MissingTitle, none, none⟩)) := by
  constructor
  · intro hlen
    match m4s_files with
    | [] => rfl
    | [_] => rfl
    | _ :: _ :: t => exact absurd hlen (by simp only [List.length_cons]; omega)
  · rintro v a rest rfl
    refine ⟨?_, ?_, ?_⟩
    · intro hv
      simp [merge_m4s_to_mp4_with_ffmpeg, hv]
    · intro hv ha
      simp [merge_m4s_to_mp4_with_ffmpeg, hv, ha]
    · intro hv ha ht
      simp [merge_m4s_to_mp4_with_ffmpeg, hv, ha, ht]

/-- Witness for `merge_fails_without_invoking_transcoder` at the spec's
scenario: an item with zero segments yields `InsufficientInput` with no
subprocess invoked. -/
theorem merge_fails_without_invoking_transcoder_witness :
    merge_m4s_to_mp4_with_ffmpeg [] "t".toList [] "out".toList
      (fun _ => true) (.exited 0) = ⟨.InsufficientInput, none, none⟩ :=
  (merge_fails_without_invoking_transcoder [] "t".toList [] "out".toList
    (fun _ => true) (.exited 0)).1 (by decide)

/-- C6: on valid input (at least two segments, first two present on disk,
non-empty title) the transcoder is invoked exactly once (the single recorded
call), with the first segment of the collection as the video input and the
second as the audio input — pairing purely by collection order — with
stream-copy (`-c copy`) and overwrite (`-y`) flags, at the computed output
path, under `timeout=300`; `returncode == 0` yields `Success` and a non-zero
exit or a timeout yields `TranscodeFailure` (a per-item result: the function
returns rather than raising). -/
theorem merge_invokes_transcoder_once (v a : List Char)
    (rest : List (List Char)) (title group_title output_path : List Char)
    (file_exists : List Char → Bool) (ffmpeg_run : ProcResult)
    (hv : file_exists v = true) (ha : file_exists a = true)
    (ht : title ≠ []) :
    (merge_m4s_to_mp4_with_ffmpeg (v :: a :: rest) title group_title
        output_path file_exists ffmpeg_run).call =
      some ⟨["ffmpeg".toList, "-i".toList, v, "-i".toList, a, "-c".toList,
        "copy".toList, "-y".toList,
        (build_output_path output_path title group_title "mp4".toList).path],
        300⟩ ∧
    (ffmpeg_run = .exited 0 →
      (merge_m4s_to_mp4_with_ffmpeg (v :: a :: rest) title group_title
        output_path file_exists ffmpeg_run).outcome = .Success) ∧
    (ffmpeg_run ≠ .exited 0 →
      (merge_m4s_to_mp4_with_ffmpeg (v :: a :: rest) title group_title
        output_path file_exists ffmpeg_run).outcome = .TranscodeFailure) := by
  refine ⟨?_, ?_, ?_⟩
  · match ffmpeg_run with
    | .exited 0 =>
      simp [merge_m4s_to_mp4_with_ffmpeg, hv, ha, ht, ffmpeg_merge_cmd]
    | .exited (n + 1) =>
      simp [merge_m4s_to_mp4_with_ffmpeg, hv, ha, ht, ffmpeg_merge_cmd]
    | .timedOut =>
      simp [merge_m4s_to_mp4_with_ffmpeg, hv, ha, ht, ffmpeg_merge_cmd]
  · rintro rfl
    simp [merge_m4s_to_mp4_with_ffmpeg, hv, ha, ht]
  · intro hrun
    match ffmpeg_run with
    | .exited 0 => exact absurd rfl hrun
    | .exited (n + 1) =>
      simp [merge_m4s_to_mp4_with_ffmpeg, hv, ha, ht]
    | .timedOut =>
      simp [merge_m4s_to_mp4_with_ffmpeg, hv, ha, ht]

/-- Witness for `merge_invokes_transcoder_once`: two present segments and a
non-empty title, with an ffmpeg run that exits non-zero: the item reports
`TranscodeFailure` (and the call was issued with the positional pairing). -/
theorem merge_invokes_transcoder_once_witness :
    (merge_m4s_to_mp4_with_ffmpeg ["v.m4s".toList, "a.m4s".toList]
        "t".toList [] "out".toList (fun _ => true)
        (.exited 1)).outcome = .TranscodeFailure ∧
    (merge_m4s_to_mp4_with_ffmpeg ["v.m4s".toList, "a.m4s".toList]
        "t".toList [] "out".toList (fun _ => true)
        (.exited 1)).call =
      some ⟨["ffmpeg".toList, "-i".toList, "v.m4s".toList, "-i".toList,
        "a.m4s".toList, "-c".toList, "copy".toList, "-y".toList,
        (build_output_path "out".toList "t".toList [] "mp4".toList).path],
        300⟩ :=
  ⟨(merge_invokes_transcoder_once "v.m4s".toList "a.m4s".toList []
      "t".toList [] "out".toList (fun _ => true) (.exited 1)
      rfl rfl (by decide)).2.2 (by decide),
    (merge_invokes_transcoder_once "v.m4s".toList "a.m4s".toList []
      "t".toList [] "out".toList (fun _ => true) (.exited 1)
      rfl rfl (by decide)).1⟩

/-- The media snapshot `get_media_info` assembles from the parsed `ffprobe`
JSON: `streams[0].codec_type`, `streams[0].codec_name`,
`format.duration`, `format.bit_rate`, `format.size`.  The numeric fields are
abstracted to `Int` (the Python `float`/`int` conversions); no claim depends
on their values. -/
structure MediaInfo where
  codec_type : List Char
  codec_name : List Char
  duration : Int
  bit_rate : Int
  size : Int
deriving DecidableEq, Repr

/-- Shape of the prober's standard output as seen by `get_media_info` after
a zero exit: either `json.loads` raises (not valid JSON), or it parses and
the subsequent field extraction either finds every expected field
(`some mi`) or raises a `KeyError`/`IndexError`/`ValueError` on a missing or
malformed field (`none`). -/
inductive ProbeStdout
  | unparseable
  | parsed (fields : Option MediaInfo)
deriving DecidableEq, Repr

/-- Behaviour of the single `subprocess.run(ffprobe..., timeout=10)` call in
`get_media_info`: exit with a return code and a stdout, or
`subprocess.TimeoutExpired`. -/
inductive ProberBehavior
  | exit (code : Nat) (stdout : ProbeStdout)
  | timeout
deriving DecidableEq, Repr

/-- The three ways `get_media_info` can end, as observed by its caller:
return the assembled dict, return `None` (the spec's `ProbeFailure`), or
raise out of the function. -/
inductive GetMediaInfoResult
  | returned (mi : MediaInfo)
  | returnedNone
  | raised
deriving DecidableEq, Repr

/-- Embedding of `get_media_info(file_path)`.  Control flow from the source:

* `returncode == 0` and the JSON parses with all fields present → the dict
  is returned;
* `returncode == 0`, JSON parses, but a field access raises (`KeyError`,
  `IndexError`, `ValueError`, …) → the exception is caught; in the handler
  `info` **is** bound (the `json.loads` assignment succeeded), so the
  handler's `print(info)` works and `None` is returned;
* `returncode != 0` → no exception: the `else` branch prints the stderr
  prefix and returns `None`;
* `returncode == 0` but the stdout is not valid JSON → `json.loads` raises
  **before** assigning `info`; the handler catches it but its second
  statement `print(info)` reads the unbound local `info`, so the handler
  itself raises `UnboundLocalError`, which escapes `get_media_info`;
* `TimeoutExpired` → same: the exception is raised before `info` (and even
  `result`) is assigned, and the handler's `print(info)` raises
  `UnboundLocalError` out of the function. -/
def get_media_info (b : ProberBehavior) : GetMediaInfoResult :=
  match b with
  | .timeout => .raised
  | .exit 0 .unparseable => .raised
  | .exit 0 (.parsed none) => .returnedNone
  | .exit 0 (.parsed (some mi)) => .returned mi
  | .exit (_ + 1) _ => .returnedNone

/-- Embedding of the audio-extraction loop of `process_directory`
(`for m4s_file in m4s_list: info = get_media_info(m4s_file); if info and
info['codec_type'] == 'audio': save_audio_file(...)`).  Each segment is
represented by the behaviour of its `ffprobe` run.  The loop body is **not**
wrapped in any `try`, so an exception escaping `get_media_info` propagates
out of `process_directory` and aborts the whole run (`.error ()`); a
segment whose probe returned `None` is skipped and the loop continues; on
normal completion the segments classified as audio (the ones handed to
`save_audio_file`) are collected. -/
def process_directory_audio_loop (segs : List ProberBehavior) :
    Except Unit (List MediaInfo) :=
  match segs with
  | [] => .ok []
  | b :: rest =>
    match get_media_info b with
    | .raised => .error ()
    | .returnedNone => process_directory_audio_loop rest
    | .returned mi =>
      match process_directory_audio_loop rest with
      | .error e => .error e
      | .ok l =>
        .ok (if mi.codec_type = "audio".toList then mi :: l else l)

/-- C2: evaluation of `get_media_info` and of the orchestrator loop at the
claim's failure cases.  A prober timeout, or a zero exit with unparseable
output, makes `get_media_info` raise (`UnboundLocalError` from the
`print(info)` in its own exception handler) instead of returning the
non-fatal `None`, and the raised exception aborts the whole
audio-extraction run — even segments listed after the failing one are never
probed.  Only the non-zero-exit and missing-field cases behave as the claim
states (a `None` that skips just that segment while the loop continues). -/
theorem get_media_info_raises_and_aborts_run :
    get_media_info .timeout = .raised ∧
    get_media_info (.exit 0 .unparseable) = .raised ∧
    get_media_info (.exit 1 .unparseable) = .returnedNone ∧
    get_media_info (.exit 0 (.parsed none)) = .returnedNone ∧
    process_directory_audio_loop
      [.timeout, .exit 0 (.parsed (some ⟨"audio".toList, "aac".toList,
        1, 1, 1⟩))] = .error () ∧
    process_directory_audio_loop
      [.exit 1 .unparseable, .exit 0 (.parsed (some ⟨"audio".toList,
        "aac".toList, 1, 1, 1⟩))] =
      .ok [⟨"audio".toList, "aac".toList, 1, 1, 1⟩] := by
  refine ⟨rfl, rfl, rfl, rfl, rfl, by rfl⟩

end BiliConvert
